import Mathlib

/-!
Verification of the Go-QuickStart interactive project launcher
(src/main.go) against its specification.

The program is embedded shallowly: file-system reads, terminal output and
spawned processes are represented by explicit data (a directory listing
passed as a list, an event trace, and boolean outcomes for the external
commands), while every function of main.go is translated structurally.
-/

/-- DirEntry models os.DirEntry as the program uses it: an entry name and
whether the entry is a directory. -/
structure DirEntry where
  name : String
  isDir : Bool
  deriving Repr, DecidableEq

/-- Remark models one element of the anonymous struct slice
Config.Remarks of main.go: a folder name and its display remark. -/
structure Remark where
  name : String
  remark : String
  deriving Repr, DecidableEq

/-- Config models the Config struct of main.go (fields ProjectDir,
SubDir, Remarks with their JSON tags projectDir, subDir, remarks). -/
structure Config where
  projectDir : String
  subDir : List String
  remarks : List Remark
  deriving Repr, DecidableEq

/-- contains mirrors contains(str, subDirs) of main.go: a linear scan
returning true when some element equals str. -/
def contains (str : String) : List String → Bool
  | [] => false
  | s :: rest => if s = str then true else contains str rest

/-- mapInsert models one Go map assignment subDirNames[k] = v: the newest
binding is put in front and shadows older bindings of the same key. -/
def mapInsert (m : List (String × Bool)) (k : String) (v : Bool) : List (String × Bool) :=
  (k, v) :: m

/-- mapLookup models reading subDirNames[k] from the Go map: the newest
binding wins, and a missing key yields the zero value false. -/
def mapLookup : List (String × Bool) → String → Bool
  | [], _ => false
  | (k, v) :: rest, n => if k = n then v else mapLookup rest n

/-- buildSubDirNames mirrors the loop in listFolders of main.go that
stores every configured sub-directory name into the subDirNames map. -/
def buildSubDirNames (subDirs : List String) : List (String × Bool) :=
  subDirs.foldl (fun m s => mapInsert m s true) []

/-- listFolders mirrors listFolders(dir, subDirs) of main.go, with the
directory listing passed in place of the os.ReadDir call: the first loop
appends the directory entries whose name is in subDirNames, the second
appends the remaining directory entries, each in on-disk order. -/
def listFolders (entries : List DirEntry) (subDirs : List String) : List DirEntry :=
  let subDirNames := buildSubDirNames subDirs
  let folders := entries.foldl
    (fun acc e => if e.isDir && mapLookup subDirNames e.name then acc ++ [e] else acc) []
  entries.foldl
    (fun acc e => if e.isDir && !mapLookup subDirNames e.name then acc ++ [e] else acc) folders

theorem mapLookup_buildSubDirNames_aux (subDirs : List String) (m : List (String × Bool))
    (n : String) :
    mapLookup (subDirs.foldl (fun m s => mapInsert m s true) m) n
      = (contains n subDirs || mapLookup m n) := by
  induction subDirs generalizing m with
  | nil => simp [contains]
  | cons s rest ih =>
    rw [List.foldl_cons, ih (mapInsert m s true)]
    simp only [contains, mapInsert, mapLookup]
    by_cases h : s = n <;> simp [h]

theorem mapLookup_buildSubDirNames (subDirs : List String) (n : String) :
    mapLookup (buildSubDirNames subDirs) n = contains n subDirs := by
  simpa [buildSubDirNames, mapLookup] using mapLookup_buildSubDirNames_aux subDirs [] n

theorem foldl_append_filter (p : DirEntry → Bool) (entries : List DirEntry)
    (init : List DirEntry) :
    entries.foldl (fun acc e => if p e then acc ++ [e] else acc) init
      = init ++ entries.filter p := by
  induction entries generalizing init with
  | nil => simp
  | cons e rest ih =>
    by_cases h : p e = true <;> simp [List.filter_cons, h, ih]

theorem contains_iff_mem (n : String) (l : List String) : contains n l = true ↔ n ∈ l := by
  induction l with
  | nil => simp [contains]
  | cons s rest ih =>
    simp only [contains, List.mem_cons]
    by_cases h : s = n
    · subst h
      simp
    · rw [if_neg h, ih]
      constructor
      · exact Or.inr
      · rintro (rfl | hm)
        · exact absurd rfl h
        · exact hm

theorem contains_eq_mem (n : String) (l : List String) :
    contains n l = decide (n ∈ l) := by
  cases hcv : contains n l
  · by_cases h : n ∈ l
    · have hct := (contains_iff_mem n l).mpr h
      rw [hcv] at hct
      exact absurd hct (by simp)
    · simp [h]
  · simp [(contains_iff_mem n l).mp hcv]

theorem listFolders_eq_filters (entries : List DirEntry) (subDirs : List String) :
    listFolders entries subDirs
      = entries.filter (fun e => e.isDir && contains e.name subDirs)
        ++ entries.filter (fun e => e.isDir && !contains e.name subDirs) := by
  simp only [listFolders]
  rw [foldl_append_filter, foldl_append_filter, List.nil_append]
  congr 1 <;> exact List.filter_congr (fun e _ => by rw [mapLookup_buildSubDirNames])

/-- C1: for every directory listing and pinned-name set, listFolders
returns exactly the directory entries (non-directories excluded), those
whose name is in the pinned set first in on-disk order, followed by the
non-pinned directory entries in on-disk order. -/
theorem listFolders_pinned_partition (entries : List DirEntry) (subDirs : List String) :
    listFolders entries subDirs
      = entries.filter (fun e => e.isDir && decide (e.name ∈ subDirs))
        ++ entries.filter (fun e => e.isDir && !decide (e.name ∈ subDirs)) := by
  simpa [contains_eq_mem] using listFolders_eq_filters entries subDirs

/-- C10: for every directory listing and every pinned-names list,
duplicates included, the folder list returned for the menu is a
permutation of the subdirectory entries of the listing: each appears
exactly once, none duplicated, none dropped. -/
theorem listFolders_perm_subdirectories (entries : List DirEntry) (subDirs : List String) :
    List.Perm (listFolders entries subDirs) (entries.filter (fun e => e.isDir)) := by
  rw [listFolders_eq_filters]
  have h1 : entries.filter (fun e => e.isDir && contains e.name subDirs)
      = (entries.filter (fun e => e.isDir)).filter (fun e => contains e.name subDirs) := by
    rw [List.filter_filter]
    exact List.filter_congr (fun a _ => Bool.and_comm _ _)
  have h2 : entries.filter (fun e => e.isDir && !contains e.name subDirs)
      = (entries.filter (fun e => e.isDir)).filter (fun e => !contains e.name subDirs) := by
    rw [List.filter_filter]
    exact List.filter_congr (fun a _ => Bool.and_comm _ _)
  rw [h1, h2]
  exact List.filter_append_perm _ _

/-- findRemark mirrors the remark-matching loop of printFolderList in
main.go: scan the remarks in order and, on the first record whose name
equals the folder name, produce the bracketed suffix and stop. -/
def findRemark : List Remark → String → String
  | [], _ => ""
  | r :: rest, folderName =>
    if r.name = folderName then "  [" ++ r.remark ++ "]" else findRemark rest folderName

/-- renderLine mirrors one iteration of the display loop of
printFolderList in main.go: the 1-based number, the name with a star
appended when pinned, then the remark suffix found for the raw name. -/
def renderLine (i : Nat) (folder : DirEntry) (subDirs : List String)
    (remarks : List Remark) : String :=
  let remark := findRemark remarks folder.name
  let folderName := if contains folder.name subDirs then folder.name ++ "*" else folder.name
  toString (i + 1) ++ ". " ++ folderName ++ remark

/-- printFolderList mirrors printFolderList of main.go as the list of
printed lines: a header line, then one numbered line per folder. -/
def printFolderList (folders : List DirEntry) (subDirs : List String)
    (remarks : List Remark) : List String :=
  "启动项目：" :: folders.enum.map (fun p => renderLine p.1 p.2 subDirs remarks)

theorem findRemark_of_no_match (remarks : List Remark) (n : String)
    (h : ∀ r ∈ remarks, r.name ≠ n) : findRemark remarks n = "" := by
  induction remarks with
  | nil => rfl
  | cons r rest ih =>
    rw [findRemark, if_neg (h r (List.mem_cons_self r rest))]
    exact ih (fun q hq => h q (List.mem_cons_of_mem r hq))

theorem findRemark_of_match (remarks : List Remark) (n : String)
    (h : ∃ r ∈ remarks, r.name = n) :
    ∃ t, findRemark remarks n = "  [" ++ t ++ "]" := by
  induction remarks with
  | nil => simp at h
  | cons r rest ih =>
    by_cases hr : r.name = n
    · exact ⟨r.remark, by rw [findRemark, if_pos hr]⟩
    · obtain ⟨q, hq, hqn⟩ := h
      rcases List.mem_cons.mp hq with rfl | hq
      · exact absurd hqn hr
      · obtain ⟨t, ht⟩ := ih ⟨q, hq, hqn⟩
        exact ⟨t, by rw [findRemark, if_neg hr, ht]⟩

theorem findRemark_append_no_match (pre rest : List Remark) (n : String)
    (h : ∀ q ∈ pre, q.name ≠ n) :
    findRemark (pre ++ rest) n = findRemark rest n := by
  induction pre with
  | nil => rfl
  | cons p ptail ih =>
    rw [List.cons_append, findRemark, if_neg (h p (List.mem_cons_self p ptail))]
    exact ih (fun q hq => h q (List.mem_cons_of_mem p hq))

/-- C6: a rendered menu entry carries a bracketed remark suffix exactly
when some remark record's name equals the raw folder name; with no
matching record the line is the bare numbered name, no suffix. -/
theorem remark_suffix_iff_match (i : Nat) (e : DirEntry) (subDirs : List String)
    (remarks : List Remark) :
    ((∃ r ∈ remarks, r.name = e.name) →
        ∃ t, renderLine i e subDirs remarks
          = toString (i + 1) ++ ". "
            ++ (if contains e.name subDirs then e.name ++ "*" else e.name)
            ++ ("  [" ++ t ++ "]"))
    ∧ ((¬ ∃ r ∈ remarks, r.name = e.name) →
        renderLine i e subDirs remarks
          = toString (i + 1) ++ ". "
            ++ (if contains e.name subDirs then e.name ++ "*" else e.name)) := by
  constructor
  · intro h
    obtain ⟨t, ht⟩ := findRemark_of_match remarks e.name h
    exact ⟨t, by rw [renderLine, ht]⟩
  · intro h
    have hnone : ∀ r ∈ remarks, r.name ≠ e.name := by
      intro r hr heq
      exact h ⟨r, hr, heq⟩
    rw [renderLine, findRemark_of_no_match remarks e.name hnone]
    simp

/-- Witness for remark_suffix_iff_match: the entry named A with one
matching remark record renders with a bracketed suffix. -/
theorem remark_suffix_iff_match_witness :
    ∃ t, renderLine 0 ⟨"A", true⟩ [] [⟨"A", "note"⟩]
      = toString (0 + 1) ++ ". "
        ++ (if contains "A" [] then "A" ++ "*" else "A")
        ++ ("  [" ++ t ++ "]") :=
  (remark_suffix_iff_match 0 ⟨"A", true⟩ [] [⟨"A", "note"⟩]).1
    ⟨⟨"A", "note"⟩, List.mem_singleton.mpr rfl, rfl⟩

/-- C9: when several remark records carry the folder's name, the
rendered line shows the first such record's remark text only: matching
stops at the first hit in remarks-list order. -/
theorem remark_first_match_wins (i : Nat) (e : DirEntry) (subDirs : List String)
    (pre post : List Remark) (r : Remark)
    (hname : r.name = e.name) (hpre : ∀ q ∈ pre, q.name ≠ e.name) :
    renderLine i e subDirs (pre ++ r :: post)
      = toString (i + 1) ++ ". "
        ++ (if contains e.name subDirs then e.name ++ "*" else e.name)
        ++ ("  [" ++ r.remark ++ "]") := by
  rw [renderLine, findRemark_append_no_match pre (r :: post) e.name hpre,
    findRemark, if_pos hname]

/-- Witness for remark_first_match_wins: with two records named A the
first record's text is the one rendered. -/
theorem remark_first_match_wins_witness :
    renderLine 0 ⟨"A", true⟩ [] ([] ++ (⟨"A", "first"⟩ : Remark) :: [⟨"A", "second"⟩])
      = toString (0 + 1) ++ ". "
        ++ (if contains "A" [] then "A" ++ "*" else "A")
        ++ ("  [" ++ "first" ++ "]") :=
  remark_first_match_wins 0 ⟨"A", true⟩ [] [] [⟨"A", "second"⟩] ⟨"A", "first"⟩ rfl
    (by intro q hq; simp at hq)

/-- Event models one observable step of the program: a terminal display,
a screen clear, a printed message, a fixed pre-launch delay, or an
external command run together with its outcome. -/
inductive Event where
  | display (lines : List String)
  | clearScreen
  | message (s : String)
  | editorRun (ok : Bool)
  | npmServe (ok : Bool)
  | windowsBat (ok : Bool)
  | sleep (secs : Nat)
  deriving Repr, DecidableEq

/-- getUserChoice mirrors getUserChoice of main.go: the scanned token is
modelled as Option Int (none when fmt.Scanln fails to parse, in which
case the Go variable keeps its zero value 0), the clearScreen call as an
emitted event; an unparsed or out-of-range input yields the error, a
valid one yields the choice. -/
def getUserChoice (maxChoice : Nat) (input : Option Int) : List Event × Except String Int :=
  let choice := input.getD 0
  if input.isNone || decide (choice < 1) || decide (choice > (maxChoice : Int)) then
    ([Event.clearScreen], Except.error "无效的选择，请重新输入。")
  else
    ([], Except.ok choice)

/-- selectLoop mirrors the selection part of the runProjectMenu loop of
main.go over a stream of inputs: each iteration prints the folder list,
reads one input, and on an invalid one prints the returned error and
loops with the folder list unchanged; a valid input ends the loop with
the choice. With no input left the loop is blocked after its display. -/
def selectLoop (folders : List DirEntry) (subDirs : List String) (remarks : List Remark) :
    List (Option Int) → List Event × Option (Int × List (Option Int))
  | [] => ([Event.display (printFolderList folders subDirs remarks)], none)
  | input :: rest =>
    let d := Event.display (printFolderList folders subDirs remarks)
    match getUserChoice folders.length input with
    | (evs, Except.error msg) =>
      let tail := selectLoop folders subDirs remarks rest
      (d :: evs ++ Event.message msg :: tail.1, tail.2)
    | (evs, Except.ok choice) => (d :: evs, some (choice, rest))

/-- C3: a menu input is accepted exactly when it parses as an integer c
with 1 ≤ c ≤ N; on an invalid input (unparsed or out of range) the
screen is cleared, an error message is printed, and the loop continues
on the same unchanged folder list, whose display opens the next
iteration. -/
theorem menu_input_validation (folders : List DirEntry) (subDirs : List String)
    (remarks : List Remark) (input : Option Int) (rest : List (Option Int)) :
    ((∃ c : Int, input = some c ∧ 1 ≤ c ∧ c ≤ folders.length) →
        selectLoop folders subDirs remarks (input :: rest)
          = ([Event.display (printFolderList folders subDirs remarks)],
             input.map (fun c => (c, rest))))
    ∧ ((¬ ∃ c : Int, input = some c ∧ 1 ≤ c ∧ c ≤ folders.length) →
        selectLoop folders subDirs remarks (input :: rest)
          = (Event.display (printFolderList folders subDirs remarks)
              :: Event.clearScreen
              :: Event.message "无效的选择，请重新输入。"
              :: (selectLoop folders subDirs remarks rest).1,
             (selectLoop folders subDirs remarks rest).2)) := by
  constructor
  · rintro ⟨c, rfl, h1, h2⟩
    have hc1 : ¬ (c < 1) := not_lt.mpr h1
    have hc2 : ¬ (c > (folders.length : Int)) := not_lt.mpr h2
    simp [selectLoop, getUserChoice, hc1, hc2]
  · intro h
    cases input with
    | none => simp [selectLoop, getUserChoice]
    | some c =>
      have hrange : c < 1 ∨ c > (folders.length : Int) := by
        by_contra hcon
        push_neg at hcon
        exact h ⟨c, rfl, hcon.1, hcon.2⟩
      rcases hrange with h1 | h1 <;> simp [selectLoop, getUserChoice, h1]

/-- Witness for menu_input_validation: on a one-entry menu the input 5
is rejected, the screen cleared, the error printed, and the loop
continues on the same list. -/
theorem menu_input_validation_witness :
    selectLoop [⟨"A", true⟩] [] [] [some 5]
      = (Event.display (printFolderList [⟨"A", true⟩] [] [])
          :: Event.clearScreen
          :: Event.message "无效的选择，请重新输入。"
          :: (selectLoop [⟨"A", true⟩] [] [] []).1,
         (selectLoop [⟨"A", true⟩] [] [] []).2) :=
  (menu_input_validation [⟨"A", true⟩] [] [] (some 5) []).2 (by
    rintro ⟨c, hc, h1, h2⟩
    simp only [Option.some_inj] at hc
    subst hc
    norm_num at h2)

/-- Json models the JSON values handled through encoding/json for the
configuration file. -/
inductive Json where
  | null
  | str (s : String)
  | arr (xs : List Json)
  | obj (fields : List (String × Json))

/-- encodeConfig mirrors how encoding/json marshals the Config struct of
main.go: an object with the tag names in struct-field order, the string
slice as an array of strings, and each remark as an object with keys
name and remark. -/
def encodeConfig (c : Config) : Json :=
  Json.obj
    [("projectDir", Json.str c.projectDir),
     ("subDir", Json.arr (c.subDir.map Json.str)),
     ("remarks", Json.arr (c.remarks.map
        (fun r => Json.obj [("name", Json.str r.name), ("remark", Json.str r.remark)])))]

/-- lookupField models how the decoder fills one struct field from a
JSON object: keys are consumed in order and a later duplicate overwrites
an earlier one, so the last binding wins; an absent key is none and the
field keeps its zero value. The case-insensitive fallback of the Go
decoder is omitted: all keys compared here are exact. -/
def lookupField (fields : List (String × Json)) (key : String) : Option Json :=
  fields.foldl (fun acc f => if f.1 = key then some f.2 else acc) none

/-- decodeStringField models unmarshalling a JSON value into a Go string
field: a string sets it, null leaves the zero value, anything else is a
type error. -/
def decodeStringField : Json → Except String String
  | Json.str s => Except.ok s
  | Json.null => Except.ok ""
  | _ => Except.error "cannot unmarshal value into string"

/-- decodeStrings models unmarshalling the elements of a JSON array into
a Go string slice, element by element. -/
def decodeStrings : List Json → Except String (List String)
  | [] => Except.ok []
  | x :: rest => do
    let s ← decodeStringField x
    let restS ← decodeStrings rest
    Except.ok (s :: restS)

/-- decodeStringArray models unmarshalling a JSON value into the string
slice field SubDir: an array decodes elementwise, null leaves the nil
slice, anything else is a type error. -/
def decodeStringArray : Json → Except String (List String)
  | Json.arr xs => decodeStrings xs
  | Json.null => Except.ok []
  | _ => Except.error "cannot unmarshal value into string slice"

/-- decodeRemark models unmarshalling a JSON value into one element of
the Remarks slice of main.go: an object fills the name and remark fields
from the matching keys, null leaves the zero struct, anything else is a
type error. -/
def decodeRemark : Json → Except String Remark
  | Json.null => Except.ok ⟨"", ""⟩
  | Json.obj fields => do
    let name ← match lookupField fields "name" with
      | none => Except.ok ""
      | some v => decodeStringField v
    let remark ← match lookupField fields "remark" with
      | none => Except.ok ""
      | some v => decodeStringField v
    Except.ok ⟨name, remark⟩
  | _ => Except.error "cannot unmarshal value into remark"

/-- decodeRemarkList models unmarshalling the elements of a JSON array
into the Remarks slice, element by element. -/
def decodeRemarkList : List Json → Except String (List Remark)
  | [] => Except.ok []
  | x :: rest => do
    let r ← decodeRemark x
    let restR ← decodeRemarkList rest
    Except.ok (r :: restR)

/-- decodeRemarksArray models unmarshalling a JSON value into the
Remarks slice field: an array decodes elementwise, null leaves the nil
slice, anything else is a type error. -/
def decodeRemarksArray : Json → Except String (List Remark)
  | Json.arr xs => decodeRemarkList xs
  | Json.null => Except.ok []
  | _ => Except.error "cannot unmarshal value into remark slice"

/-- decodeConfig models json.Decoder.Decode of main.go into a Config:
the top-level value must be an object (or null, leaving the zero
Config); each known key fills its field, absent or null fields keep
their zero values, and wrong value shapes are errors. -/
def decodeConfig : Json → Except String Config
  | Json.null => Except.ok ⟨"", [], []⟩
  | Json.obj fields => do
    let projectDir ← match lookupField fields "projectDir" with
      | none => Except.ok ""
      | some v => decodeStringField v
    let subDir ← match lookupField fields "subDir" with
      | none => Except.ok []
      | some v => decodeStringArray v
    let remarks ← match lookupField fields "remarks" with
      | none => Except.ok []
      | some v => decodeRemarksArray v
    Except.ok ⟨projectDir, subDir, remarks⟩
  | _ => Except.error "cannot unmarshal value into Config"

/-- WriteOut models the file produced by writeConfig of main.go: the
encoded JSON value together with the indentation set on the encoder. -/
structure WriteOut where
  value : Json
  indentPrefix : String
  indentStr : String

/-- writeConfig mirrors writeConfig of main.go: it encodes the Config
after SetIndent with an empty prefix and a two-space indent. -/
def writeConfig (config : Config) : WriteOut :=
  ⟨encodeConfig config, "", "  "⟩

/-- readConfig mirrors readConfig of main.go. The configuration file is
modelled as none when absent and some content when present, the content
itself being none when it is not well-formed JSON and some j when it
parses to the value j. The result pairs what readConfig returns with the
file written by the default-creation path, if any. -/
def readConfig (exeDir : String) (file : Option (Option Json)) :
    Except String Config × Option WriteOut :=
  match file with
  | none =>
    let defaultConfig : Config := ⟨exeDir, [], []⟩
    (Except.ok defaultConfig, some (writeConfig defaultConfig))
  | some none => (Except.error "invalid JSON", none)
  | some (some j) =>
    match decodeConfig j with
    | Except.ok c => (Except.ok c, none)
    | Except.error e => (Except.error e, none)

theorem decodeStrings_map_str (l : List String) :
    decodeStrings (l.map Json.str) = Except.ok l := by
  induction l with
  | nil => rfl
  | cons s rest ih =>
    simp [decodeStrings, decodeStringField, ih]
    rfl

theorem decodeRemark_encoded (r : Remark) :
    decodeRemark (Json.obj [("name", Json.str r.name), ("remark", Json.str r.remark)])
      = Except.ok r := by
  simp [decodeRemark, lookupField, decodeStringField]
  rfl

theorem decodeRemarkList_encoded (l : List Remark) :
    decodeRemarkList (l.map
        (fun r => Json.obj [("name", Json.str r.name), ("remark", Json.str r.remark)]))
      = Except.ok l := by
  induction l with
  | nil => rfl
  | cons r rest ih =>
    simp [decodeRemarkList, decodeRemark_encoded, ih]
    rfl

/-- C4: with the config file absent, readConfig returns a Config whose
projectDir is the directory of the running executable and whose pinned
names and remarks are empty, and persists exactly that Config with
2-space indentation; with the file present but malformed, readConfig
returns an error, no defaulted or partial Config, and writes nothing. -/
theorem readConfig_default_and_malformed (exeDir : String) :
    readConfig exeDir none
      = (Except.ok ⟨exeDir, [], []⟩,
         some ⟨encodeConfig ⟨exeDir, [], []⟩, "", "  "⟩)
    ∧ readConfig exeDir (some none) = (Except.error "invalid JSON", none) :=
  ⟨rfl, rfl⟩

/-- C5: writing any Config and loading the written value back
reproduces the same projectDir, the same pinned names and the same
remarks. -/
theorem config_round_trip (config : Config) (exeDir : String) :
    readConfig exeDir (some (some (writeConfig config).value))
      = (Except.ok config, none) := by
  have hdec : decodeConfig (encodeConfig config) = Except.ok config := by
    simp [decodeConfig, encodeConfig, lookupField, decodeStringField,
      decodeStringArray, decodeStrings_map_str,
      decodeRemarksArray, decodeRemarkList_encoded]
    rfl
  simp [readConfig, writeConfig, hdec]

/-- Env models the ambient state the launcher reads: the directory
listing at each absolute path (given as a list of components), whether
package.json and webman exist at a path, and whether each external
command the launcher spawns exits successfully. -/
structure Env where
  children : List String → List DirEntry
  hasPackageJson : List String → Bool
  hasWebman : List String → Bool
  editorOk : Bool
  npmOk : Bool
  batOk : Bool

/-- nestedSelect mirrors the inner selection loop of runCommand in
main.go over a stream of inputs: unlike the runProjectMenu loop it does
not re-print the folder list, it reads again right after printing the
returned error. It ends with the valid choice and the unconsumed
inputs, or none when the stream runs out. -/
def nestedSelect (maxChoice : Nat) :
    List (Option Int) → List Event × Option (Int × List (Option Int))
  | [] => ([], none)
  | input :: rest =>
    match getUserChoice maxChoice input with
    | (evs, Except.error msg) =>
      let tail := nestedSelect maxChoice rest
      (evs ++ Event.message msg :: tail.1, tail.2)
    | (evs, Except.ok choice) => (evs, some (choice, rest))

theorem nestedSelect_rest_lt (maxChoice : Nat) (inputs : List (Option Int))
    (c : Int) (rest : List (Option Int))
    (h : (nestedSelect maxChoice inputs).2 = some (c, rest)) :
    rest.length < inputs.length := by
  induction inputs with
  | nil => simp [nestedSelect] at h
  | cons input tl ih =>
    rw [nestedSelect] at h
    cases hg : getUserChoice maxChoice input with
    | mk evs r =>
      rw [hg] at h
      cases r with
      | error msg =>
        simp at h
        exact Nat.lt_trans (ih h) (Nat.lt_succ_self _)
      | ok choice =>
        simp at h
        rw [h.2]
        exact Nat.lt_succ_self _

/-- runCommand mirrors runCommand(folder, subDirs, remarks) of main.go:
the working directory is threaded as an explicit path, the nested menu
loop consumes the input stream, and the spawned commands report their
outcome through the environment. The result is the event trace paired
with the error runCommand returns; an input stream exhausted inside the
nested menu ends the trace there with a distinguished error. -/
def runCommand (env : Env) (cwd : List String) (folder : String) (subDirs : List String)
    (remarks : List Remark) (inputs : List (Option Int)) :
    List Event × Except String Unit :=
  let cwdNew := cwd ++ [folder]
  let start := Event.message ("正在启动项目：" ++ folder)
  if contains folder subDirs then
    let folders := listFolders (env.children cwdNew) []
    if folders.length = 0 then
      ([start, Event.message "项目目录下没有任何文件夹。"], Except.ok ())
    else
      let shown := [Event.clearScreen, Event.display (printFolderList folders subDirs remarks)]
      match hsel : nestedSelect folders.length inputs with
      | (evs, none) => (start :: shown ++ evs, Except.error "input exhausted")
      | (evs, some (choice, rest)) =>
        let selected := (folders.getD ((choice - 1).toNat) ⟨"", false⟩).name
        let nested := runCommand env cwdNew selected subDirs remarks rest
        (start :: shown ++ evs ++ nested.1,
         match nested.2 with
         | Except.ok _ => Except.ok ()
         | Except.error e => Except.error ("无法执行命令: " ++ e))
  else
    if env.editorOk then
      let base := [start, Event.editorRun true]
      if env.hasPackageJson cwdNew then
        (base ++ [Event.message ("检测到 " ++ folder ++ " 为 WEB 项目"),
                  Event.message "5秒后启动 web 服务，Ctrl+C 停止",
                  Event.sleep 5, Event.npmServe env.npmOk]
              ++ (if env.npmOk then [] else [Event.message "无法启动 web 服务"]),
         Except.ok ())
      else if env.hasWebman cwdNew then
        (base ++ [Event.message ("检测到 " ++ folder ++ " 为 webman 项目"),
                  Event.message "5秒后启动 webman 服务，Ctrl+C 停止",
                  Event.sleep 5, Event.windowsBat env.batOk]
              ++ (if env.batOk then [] else [Event.message "无法启动 webman 服务"]),
         Except.ok ())
      else
        (base, Except.ok ())
    else
      ([start, Event.editorRun false], Except.error "editor failed")
termination_by inputs.length
decreasing_by
  exact nestedSelect_rest_lt folders.length inputs choice rest (by rw [hsel])

/-- runProjectMenu mirrors runProjectMenu of main.go: list the folders
of the project directory, loop for a selection, and dispatch the chosen
folder through runCommand; the Go loop runs runCommand at most once,
breaking on its success and returning its wrapped error otherwise. -/
def runProjectMenu (env : Env) (projectDir : String) (subDirs : List String)
    (remarks : List Remark) (inputs : List (Option Int)) :
    List Event × Except String Unit :=
  let folders := listFolders (env.children [projectDir]) subDirs
  match selectLoop folders subDirs remarks inputs with
  | (evs, none) => (evs, Except.error "input exhausted")
  | (evs, some (choice, rest)) =>
    let selected := (folders.getD ((choice - 1).toNat) ⟨"", false⟩).name
    let dispatched := runCommand env [projectDir] selected subDirs remarks rest
    (evs ++ dispatched.1,
     match dispatched.2 with
     | Except.ok _ => Except.ok ()
     | Except.error e => Except.error ("无法执行命令: " ++ e))

/-- C7: in the non-pinned launch path, a failing editor command is
propagated and aborts the launch before any server step, while a failing
dev-server command or startup script is only logged: a failure message
joins the trace and runCommand still returns success. -/
theorem launch_failure_semantics (env : Env) (cwd : List String) (folder : String)
    (subDirs : List String) (remarks : List Remark) (inputs : List (Option Int))
    (hnp : contains folder subDirs = false) :
    (env.editorOk = false →
        runCommand env cwd folder subDirs remarks inputs
          = ([Event.message ("正在启动项目：" ++ folder), Event.editorRun false],
             Except.error "editor failed"))
    ∧ (env.editorOk = true → env.hasPackageJson (cwd ++ [folder]) = true →
        env.npmOk = false →
        Event.message "无法启动 web 服务"
            ∈ (runCommand env cwd folder subDirs remarks inputs).1
          ∧ (runCommand env cwd folder subDirs remarks inputs).2 = Except.ok ())
    ∧ (env.editorOk = true → env.hasPackageJson (cwd ++ [folder]) = false →
        env.hasWebman (cwd ++ [folder]) = true → env.batOk = false →
        Event.message "无法启动 webman 服务"
            ∈ (runCommand env cwd folder subDirs remarks inputs).1
          ∧ (runCommand env cwd folder subDirs remarks inputs).2 = Except.ok ())
    ∧ (env.editorOk = true →
        (runCommand env cwd folder subDirs remarks inputs).2 = Except.ok ()) := by
  refine ⟨?_, ?_, ?_, ?_⟩
  · intro h
    simp [runCommand, hnp, h]
  · intro h hp hn
    simp [runCommand, hnp, h, hp, hn]
  · intro h hp hw hb
    simp [runCommand, hnp, h, hp, hw, hb]
  · intro h
    by_cases hp : env.hasPackageJson (cwd ++ [folder]) = true
    · simp [runCommand, hnp, h, hp]
    · by_cases hw : env.hasWebman (cwd ++ [folder]) = true <;>
        simp [runCommand, hnp, h, hp, hw]

/-- Witness for launch_failure_semantics: in an environment with a
failing editor, the launch of the non-pinned folder A aborts with the
propagated error right after the editor step. -/
theorem launch_failure_semantics_witness :
    runCommand ⟨fun _ => [], fun _ => false, fun _ => false, false, true, true⟩
        ["root"] "A" [] [] []
      = ([Event.message ("正在启动项目：" ++ "A"), Event.editorRun false],
         Except.error "editor failed") :=
  (launch_failure_semantics ⟨fun _ => [], fun _ => false, fun _ => false, false, true, true⟩
    ["root"] "A" [] [] [] rfl).1 rfl

/-- C8: after a successful editor launch in a non-pinned folder, the
manifest file is checked first: with package.json present the dev
server is run and no startup script ever is, whatever the webman
marker says; with only the webman marker present the startup script is
run and the dev server is not; with neither present no server command
of any kind is run. -/
theorem server_detection_order (env : Env) (cwd : List String) (folder : String)
    (subDirs : List String) (remarks : List Remark) (inputs : List (Option Int))
    (hnp : contains folder subDirs = false) (hed : env.editorOk = true) :
    (env.hasPackageJson (cwd ++ [folder]) = true →
        Event.npmServe env.npmOk ∈ (runCommand env cwd folder subDirs remarks inputs).1
          ∧ ∀ b, Event.windowsBat b ∉ (runCommand env cwd folder subDirs remarks inputs).1)
    ∧ (env.hasPackageJson (cwd ++ [folder]) = false →
        env.hasWebman (cwd ++ [folder]) = true →
        Event.windowsBat env.batOk ∈ (runCommand env cwd folder subDirs remarks inputs).1
          ∧ ∀ b, Event.npmServe b ∉ (runCommand env cwd folder subDirs remarks inputs).1)
    ∧ (env.hasPackageJson (cwd ++ [folder]) = false →
        env.hasWebman (cwd ++ [folder]) = false →
        runCommand env cwd folder subDirs remarks inputs
          = ([Event.message ("正在启动项目：" ++ folder), Event.editorRun true],
             Except.ok ())) := by
  refine ⟨?_, ?_, ?_⟩
  · intro hp
    cases hn : env.npmOk <;> simp [runCommand, hnp, hed, hp, hn]
  · intro hp hw
    cases hb : env.batOk <;> simp [runCommand, hnp, hed, hp, hw, hb]
  · intro hp hw
    simp [runCommand, hnp, hed, hp, hw]

/-- Witness for server_detection_order: in a non-pinned folder carrying
both package.json and the webman marker, the dev server is run and the
startup script is not. -/
theorem server_detection_order_witness :
    Event.npmServe true
        ∈ (runCommand ⟨fun _ => [], fun _ => true, fun _ => true, true, true, true⟩
            ["root"] "A" [] [] []).1
      ∧ ∀ b, Event.windowsBat b
        ∉ (runCommand ⟨fun _ => [], fun _ => true, fun _ => true, true, true, true⟩
            ["root"] "A" [] [] []).1 :=
  (server_detection_order ⟨fun _ => [], fun _ => true, fun _ => true, true, true, true⟩
    ["root"] "A" [] [] [] rfl rfl).1 rfl

/-- nestedPinEnv is a concrete environment where the pinned directory B
has a single child directory that is also named B. -/
def nestedPinEnv : Env where
  children := fun path => if path = ["root", "B"] then [⟨"B", true⟩] else []
  hasPackageJson := fun _ => false
  hasWebman := fun _ => false
  editorOk := true
  npmOk := true
  batOk := true

/-- Counterexample to C2: with pin set B, descending into the pinned
directory B whose only child is again named B, the nested menu line
reads 1. B* (the child is marked as pinned) and choosing it is treated
as pinned: the launcher descends again and the trace holds no editor
launch, against the claim that no nested child is marked or treated as
pinned. -/
theorem nested_pinning_counterexample :
    (runCommand nestedPinEnv ["root"] "B" ["B"] [] [some 1]).1
      = [Event.message "正在启动项目：B",
         Event.clearScreen,
         Event.display ["启动项目：", "1. B*"],
         Event.message "正在启动项目：B",
         Event.message "项目目录下没有任何文件夹。"]
    ∧ ∀ b : Bool,
        Event.editorRun b ∉ (runCommand nestedPinEnv ["root"] "B" ["B"] [] [some 1]).1 := by
  have h : (runCommand nestedPinEnv ["root"] "B" ["B"] [] [some 1]).1
      = [Event.message "正在启动项目：B",
         Event.clearScreen,
         Event.display ["启动项目：", "1. B*"],
         Event.message "正在启动项目：B",
         Event.message "项目目录下没有任何文件夹。"] := by
    simp [runCommand, nestedPinEnv, nestedSelect, getUserChoice, listFolders,
      buildSubDirNames, mapLookup, printFolderList, renderLine, findRemark, contains]
    rfl
  refine ⟨h, ?_⟩
  intro b
  rw [h]
  simp

/-- C2 amended: when a pinned entry is selected the launcher changes
into it, lists its children with an empty pin set (so no pin-first
reordering is applied to the nested listing), reports and stops if the
child list is empty, and otherwise clears the screen and re-enters the
menu loop on the children, recursing with the ORIGINAL pinned-name set
still in force: the nested display marks children whose name is in that
set, and such a child is treated as pinned when selected. -/
theorem pinned_branch_behavior (env : Env) (cwd : List String) (folder : String)
    (subDirs : List String) (remarks : List Remark)
    (hpin : contains folder subDirs = true) :
    (listFolders (env.children (cwd ++ [folder])) [] = [] →
        ∀ inputs, runCommand env cwd folder subDirs remarks inputs
          = ([Event.message ("正在启动项目：" ++ folder),
              Event.message "项目目录下没有任何文件夹。"], Except.ok ()))
    ∧ (∀ (c : Int) (rest : List (Option Int)),
        listFolders (env.children (cwd ++ [folder])) [] ≠ [] →
        1 ≤ c → c ≤ (listFolders (env.children (cwd ++ [folder])) []).length →
        runCommand env cwd folder subDirs remarks (some c :: rest)
          = (Event.message ("正在启动项目：" ++ folder)
              :: Event.clearScreen
              :: Event.display (printFolderList
                    (listFolders (env.children (cwd ++ [folder])) []) subDirs remarks)
              :: (runCommand env (cwd ++ [folder])
                    ((listFolders (env.children (cwd ++ [folder])) []).getD
                        ((c - 1).toNat) ⟨"", false⟩).name
                    subDirs remarks rest).1,
             match (runCommand env (cwd ++ [folder])
                      ((listFolders (env.children (cwd ++ [folder])) []).getD
                          ((c - 1).toNat) ⟨"", false⟩).name
                      subDirs remarks rest).2 with
             | Except.ok _ => Except.ok ()
             | Except.error e => Except.error ("无法执行命令: " ++ e))) := by
  constructor
  · intro hempty inputs
    simp [runCommand, hpin, hempty]
  · intro c rest hne h1 h2
    have hlen : (listFolders (env.children (cwd ++ [folder])) []).length ≠ 0 := by
      simpa [List.length_eq_zero] using hne
    have hc1 : ¬ (c < 1) := not_lt.mpr h1
    have hc2 : ¬ (c > ((listFolders (env.children (cwd ++ [folder])) []).length : Int)) :=
      not_lt.mpr h2
    have hsel : nestedSelect (listFolders (env.children (cwd ++ [folder])) []).length
        (some c :: rest) = ([], some (c, rest)) := by
      simp [nestedSelect, getUserChoice, hc1, hc2]
    conv_lhs => rw [runCommand]
    simp [hpin, hlen, hsel]
    split
    · rename_i evs heq
      rw [hsel] at heq
      simp at heq
    · rename_i evs choice rest1 heq
      rw [hsel] at heq
      simp at heq
      obtain ⟨he, hc, hr⟩ := heq
      subst he
      subst hc
      subst hr
      simp

/-- Witness for pinned_branch_behavior: the pinned directory B of
nestedPinEnv has one child, and choosing entry 1 descends into it with
the original pin set still threaded through. -/
theorem pinned_branch_behavior_witness :
    runCommand nestedPinEnv ["root"] "B" ["B"] [] (some 1 :: [])
      = (Event.message ("正在启动项目：" ++ "B")
          :: Event.clearScreen
          :: Event.display (printFolderList
                (listFolders (nestedPinEnv.children (["root"] ++ ["B"])) []) ["B"] [])
          :: (runCommand nestedPinEnv (["root"] ++ ["B"])
                ((listFolders (nestedPinEnv.children (["root"] ++ ["B"])) []).getD
                    (((1 : Int) - 1).toNat) ⟨"", false⟩).name
                ["B"] [] []).1,
         match (runCommand nestedPinEnv (["root"] ++ ["B"])
                  ((listFolders (nestedPinEnv.children (["root"] ++ ["B"])) []).getD
                      (((1 : Int) - 1).toNat) ⟨"", false⟩).name
                  ["B"] [] []).2 with
         | Except.ok _ => Except.ok ()
         | Except.error e => Except.error ("无法执行命令: " ++ e)) :=
  (pinned_branch_behavior nestedPinEnv ["root"] "B" ["B"] [] rfl).2 1 []
    (by decide) (by decide) (by decide)
